import Mathlib

set_option maxHeartbeats 1000000
set_option maxRecDepth 100000

/-!
Shallow embedding of the customer reconciliation logic of the
QB_Connector_Customer_Python repository.

The embedding covers:
* `src/quickbook_connector/compare.py` (`compare_customers` over the
  `model.py` dataclasses `Customer`, `Conflict`, `ComparisonReport`);
* `src/quickbook_connector/customer_excel_qb_sync.py` (`Customer`,
  `CustomerComparison`, `compare_customers`, `create_customers_batch_qbxml`,
  `save_customers_to_quickbooks`, `process_customers`, and the session
  open/close discipline of `connect_to_quickbooks` / `get_qb_customers`);
* `src/quickbook_connector/qb_gateway.py` (`_escape_xml`,
  `add_customer_batch`, and the session discipline of `_qb_session` /
  `_send_qbxml`).

Python strings are lists of characters, Python dicts are association lists
built in insertion order (later assignments to an existing key overwrite the
value in place), the COM transport is an explicit function argument returning
`Except`, and exceptions are `Except.error` values.  Session usage is tracked
either by an explicit count of opened sessions or, for the temporal claim, by
an event-trace model of the try/finally structure of the Python code.
-/

/-- Python strings are modelled as lists of characters. -/
abbrev PyStr := List Char

/-- View a Lean string literal as a Python string value. -/
def pys (s : String) : PyStr := s.data

/-- Python `str.strip()` with no argument: drop leading and trailing
whitespace.  (`Char.isWhitespace` stands in for Python's whitespace class.) -/
def pyStrip (s : PyStr) : PyStr :=
  ((s.dropWhile Char.isWhitespace).reverse.dropWhile Char.isWhitespace).reverse

/-- Python `str.lower()` (ASCII lowering stands in for Unicode lowering). -/
def pyLower (s : PyStr) : PyStr := s.map Char.toLower

/-- Python `str.replace(old, new)` for a single-character `old`, which is the
only form used by the repository (`"&"`, `"<"`, `">"`, `"\x22"`, the
apostrophe).  Every occurrence is replaced. -/
def pyReplace (s : PyStr) (c : Char) (r : PyStr) : PyStr :=
  s.flatMap (fun x => if x = c then r else [x])

/-- Value of a decimal digit character, if it is one. -/
def digitVal (c : Char) : Option Nat :=
  if '0' ≤ c ∧ c ≤ '9' then some (c.toNat - '0'.toNat) else none

/-- Decimal value of a non-empty all-digit string, `none` otherwise. -/
def digitsToNat (cs : List Char) : Option Nat :=
  if cs.isEmpty then none
  else
    cs.foldl
      (fun acc c =>
        match acc, digitVal c with
        | some n, some d => some (n * 10 + d)
        | _, _ => none)
      (some 0)

/-- Python `int(s)` on a string: strip whitespace, optional sign, decimal
digits; `none` models the `ValueError` raised otherwise. -/
def pyInt (s : PyStr) : Option Int :=
  match pyStrip s with
  | '-' :: rest => (digitsToNat rest).map (fun n => -(n : Int))
  | '+' :: rest => (digitsToNat rest).map (fun n => (n : Int))
  | t => (digitsToNat t).map (fun n => (n : Int))

/-! ### Python dict model

A Python dict is modelled as an association list in key-insertion order.
`dictInsert d k v` models the assignment `d[k] = v`: if `k` is already bound
its (unique) binding is overwritten in place, keeping its position; otherwise
the pair is appended.  `dictOfList` models a dict comprehension / loop that
inserts the key-value pairs in list order, so a later duplicate key keeps its
original position but receives the later value — exactly Python's semantics. -/

/-- Model of the Python dict assignment `d[k] = v`. -/
def dictInsert {α β : Type} [DecidableEq α] : List (α × β) → α → β → List (α × β)
  | [], k, v => [(k, v)]
  | p :: rest, k, v => if p.1 = k then (k, v) :: rest else p :: dictInsert rest k v

/-- Model of a Python dict comprehension over a list of key-value pairs. -/
def dictOfList {α β : Type} [DecidableEq α] (l : List (α × β)) : List (α × β) :=
  l.foldl (fun d p => dictInsert d p.1 p.2) []

/-- Model of the Python dict lookup `d[k]` (`none` when the key is absent). -/
def dictLookup {α β : Type} [DecidableEq α] : List (α × β) → α → Option β
  | [], _ => none
  | p :: rest, k => if p.1 = k then some p.2 else dictLookup rest k

/-- Model of the Python membership test `k in d`. -/
def dictMem {α β : Type} [DecidableEq α] (d : List (α × β)) (k : α) : Bool :=
  (dictLookup d k).isSome

theorem dictLookup_insert {α β : Type} [DecidableEq α]
    (d : List (α × β)) (k : α) (v : β) (x : α) :
    dictLookup (dictInsert d k v) x = if x = k then some v else dictLookup d x := by
  induction d with
  | nil =>
    by_cases h : x = k
    · simp [dictInsert, dictLookup, h]
    · simp [dictInsert, dictLookup, h, Ne.symm h]
  | cons p rest ih =>
    by_cases hp : p.1 = k
    · by_cases hx : x = k
      · simp [dictInsert, dictLookup, hp, hx]
      · simp [dictInsert, dictLookup, hp, hx, Ne.symm hx]
    · by_cases hx : p.1 = x
      · have : ¬ x = k := fun h => hp (hx.trans h)
        simp [dictInsert, dictLookup, hp, hx, this]
      · simp [dictInsert, dictLookup, hp, hx, ih]

theorem keys_dictInsert {α β : Type} [DecidableEq α]
    (d : List (α × β)) (k : α) (v : β) :
    (dictInsert d k v).map Prod.fst =
      if k ∈ d.map Prod.fst then d.map Prod.fst else d.map Prod.fst ++ [k] := by
  induction d with
  | nil => simp [dictInsert]
  | cons p rest ih =>
    by_cases hp : p.1 = k
    · simp [dictInsert, hp]
    · have hkp : ¬ k = p.1 := fun h => hp h.symm
      by_cases hk : k ∈ rest.map Prod.fst <;>
        simp [dictInsert, hp, ih, hkp, hk]

theorem nodupKeys_dictInsert {α β : Type} [DecidableEq α]
    (d : List (α × β)) (k : α) (v : β)
    (h : (d.map Prod.fst).Nodup) : ((dictInsert d k v).map Prod.fst).Nodup := by
  rw [keys_dictInsert]
  by_cases hk : k ∈ d.map Prod.fst
  · simpa [hk] using h
  · simp only [hk, if_false]
    exact (List.nodup_append.mpr ⟨h, List.nodup_singleton k, by simpa using hk⟩)

theorem nodupKeys_dictOfList {α β : Type} [DecidableEq α] (l : List (α × β)) :
    ((dictOfList l).map Prod.fst).Nodup := by
  induction l using List.reverseRecOn with
  | nil => simp [dictOfList]
  | append_singleton l p ih =>
    have : dictOfList (l ++ [p]) = dictInsert (dictOfList l) p.1 p.2 := by
      simp [dictOfList, List.foldl_append]
    rw [this]
    exact nodupKeys_dictInsert _ _ _ ih

theorem dictOfList_append_singleton {α β : Type} [DecidableEq α]
    (l : List (α × β)) (p : α × β) :
    dictOfList (l ++ [p]) = dictInsert (dictOfList l) p.1 p.2 := by
  simp [dictOfList, List.foldl_append]

theorem dictLookup_eq_none_iff {α β : Type} [DecidableEq α]
    (d : List (α × β)) (k : α) :
    dictLookup d k = none ↔ k ∉ d.map Prod.fst := by
  induction d with
  | nil => simp [dictLookup]
  | cons p rest ih =>
    by_cases hp : p.1 = k
    · constructor
      · intro h
        simp only [dictLookup, if_pos hp] at h
        exact absurd h (by simp)
      · intro h
        exact absurd (by simp [hp] : k ∈ (p :: rest).map Prod.fst) h
    · simp only [dictLookup, if_neg hp, ih]
      constructor
      · intro h hmem
        rcases (by simpa using hmem : k = p.1 ∨ k ∈ rest.map Prod.fst) with h1 | h2
        · exact hp h1.symm
        · exact h h2
      · intro h hmem
        exact h (by simp [hmem])

theorem dictMem_iff {α β : Type} [DecidableEq α] (d : List (α × β)) (k : α) :
    dictMem d k = true ↔ k ∈ d.map Prod.fst := by
  rw [dictMem, Option.isSome_iff_ne_none, ne_eq, dictLookup_eq_none_iff]
  simp

/-- A dict built from pairs whose keys are already distinct is that very list:
insertion order is preserved and nothing is overwritten. -/
theorem dictOfList_eq_self {α β : Type} [DecidableEq α] (l : List (α × β))
    (h : (l.map Prod.fst).Nodup) : dictOfList l = l := by
  induction l using List.reverseRecOn with
  | nil => simp [dictOfList]
  | append_singleton l p ih =>
    have hmap : (l ++ [p]).map Prod.fst = l.map Prod.fst ++ [p.1] := by simp
    rw [hmap] at h
    have hl : (l.map Prod.fst).Nodup := (List.nodup_append.mp h).1
    have hnotin : p.1 ∉ l.map Prod.fst := by
      intro hmem
      exact (List.nodup_append.mp h).2.2 hmem (by simp)
    rw [dictOfList_append_singleton, ih hl]
    have : dictLookup l p.1 = none := (dictLookup_eq_none_iff _ _).mpr hnotin
    clear ih h hmap hl
    induction l with
    | nil => simp [dictInsert]
    | cons q rest ihq =>
      have hq : ¬ q.1 = p.1 := by
        intro hq; exact hnotin (by simp [hq.symm])
      have hrest : p.1 ∉ rest.map Prod.fst := fun hm => hnotin (by simp [hm])
      have hlrest : dictLookup rest p.1 = none := (dictLookup_eq_none_iff _ _).mpr hrest
      simp [dictInsert, hq, ihq hrest hlrest]

/-- Looking a key up in a Python-dict built from a pair list returns the value
of the **last** pair carrying that key (later assignments overwrite). -/
theorem dictLookup_dictOfList {α β : Type} [DecidableEq α]
    (l : List (α × β)) (k : α) :
    dictLookup (dictOfList l) k =
      (l.reverse.find? (fun p => decide (p.1 = k))).map Prod.snd := by
  induction l using List.reverseRecOn with
  | nil => simp [dictOfList, dictLookup]
  | append_singleton l p ih =>
    rw [dictOfList_append_singleton, dictLookup_insert]
    by_cases h : k = p.1
    · simp [List.find?, h]
    · have : ¬ p.1 = k := fun h' => h h'.symm
      simp [List.find?, h, this, ih]

theorem mem_keys_dictOfList {α β : Type} [DecidableEq α] (l : List (α × β)) (k : α) :
    k ∈ (dictOfList l).map Prod.fst ↔ k ∈ l.map Prod.fst := by
  rw [← dictMem_iff, dictMem, dictLookup_dictOfList]
  constructor
  · intro h
    have : (l.reverse.find? (fun p => decide (p.1 = k))).isSome = true := by
      cases hf : l.reverse.find? (fun p => decide (p.1 = k)) <;> simp [hf] at h ⊢
    rcases List.find?_isSome.mp this with ⟨p, hp, hpk⟩
    exact List.mem_map.mpr ⟨p, List.mem_reverse.mp hp, by simpa using hpk⟩
  · intro h
    rcases List.mem_map.mp h with ⟨p, hp, hpk⟩
    have : (l.reverse.find? (fun p => decide (p.1 = k))).isSome = true :=
      List.find?_isSome.mpr ⟨p, List.mem_reverse.mpr hp, by simpa using hpk⟩
    cases hf : l.reverse.find? (fun p => decide (p.1 = k)) <;> simp [hf] at this ⊢

theorem length_dictInsert {α β : Type} [DecidableEq α] (d : List (α × β)) (k : α) (v : β) :
    (dictInsert d k v).length =
      if k ∈ d.map Prod.fst then d.length else d.length + 1 := by
  induction d with
  | nil => simp [dictInsert]
  | cons p rest ih =>
    by_cases hp : p.1 = k
    · simp [dictInsert, hp]
    · have hkp : ¬ k = p.1 := fun h => hp h.symm
      by_cases hk : k ∈ rest.map Prod.fst <;> simp [dictInsert, hp, ih, hkp, hk]

/-- The size of a Python dict built from a pair list is the number of distinct
keys in the list. -/
theorem length_dictOfList {α β : Type} [DecidableEq α] (l : List (α × β)) :
    (dictOfList l).length = (l.map Prod.fst).toFinset.card := by
  induction l using List.reverseRecOn with
  | nil => simp [dictOfList]
  | append_singleton l p ih =>
    rw [dictOfList_append_singleton, length_dictInsert, ih]
    have hset : ((l ++ [p]).map Prod.fst).toFinset =
        insert p.1 (l.map Prod.fst).toFinset := by
      ext x; simp [or_comm]
    rw [hset]
    by_cases hk : p.1 ∈ (dictOfList l).map Prod.fst
    · have hk' : p.1 ∈ l.map Prod.fst := (mem_keys_dictOfList l p.1).mp hk
      rw [if_pos hk, Finset.insert_eq_self.mpr (List.mem_toFinset.mpr hk')]
    · have hk' : p.1 ∉ l.map Prod.fst := fun h => hk ((mem_keys_dictOfList l p.1).mpr h)
      rw [if_neg hk, Finset.card_insert_of_not_mem (fun h => hk' (List.mem_toFinset.mp h))]

/-- In an association list with distinct keys in which `k` is bound to `x`,
filtering for key `k` yields exactly the pair `(k, x)`. -/
theorem dictFilter_key {α β : Type} [DecidableEq α]
    (d : List (α × β)) (k : α) (x : β)
    (hn : (d.map Prod.fst).Nodup) (hl : dictLookup d k = some x) :
    d.filter (fun p => decide (p.1 = k)) = [(k, x)] := by
  induction d with
  | nil => simp [dictLookup] at hl
  | cons p rest ih =>
    have hmap : (p :: rest).map Prod.fst = p.1 :: rest.map Prod.fst := by simp
    rw [hmap] at hn
    have hn1 : p.1 ∉ rest.map Prod.fst := (List.nodup_cons.mp hn).1
    have hn2 : (rest.map Prod.fst).Nodup := (List.nodup_cons.mp hn).2
    by_cases hp : p.1 = k
    · have hx : p.2 = x := by simpa [dictLookup, hp] using hl
      have hrest : rest.filter (fun q => decide (q.1 = k)) = [] := by
        rw [List.filter_eq_nil_iff]
        intro q hq hqk
        have hqk' : q.1 = p.1 := (by simpa using hqk : q.1 = k).trans hp.symm
        exact hn1 (hqk' ▸ List.mem_map.mpr ⟨q, hq, rfl⟩)
      have hpair : p = (k, x) := by
        cases p; simp_all
      simp [List.filter_cons, hp, hrest, hpair]
    · have hl' : dictLookup rest k = some x := by simpa [dictLookup, hp] using hl
      simp [List.filter_cons, hp, ih hn2 hl']

/-- Filtering the output of a key-preserving `filterMap` for one key is the
same as filtering the input for that key first. -/
theorem filterMap_filter_key {α β γ : Type} [DecidableEq α]
    (g : α × β → Option γ) (keyf : γ → α)
    (hk : ∀ p t, g p = some t → keyf t = p.1)
    (d : List (α × β)) (k : α) :
    (d.filterMap g).filter (fun t => decide (keyf t = k)) =
      (d.filter (fun p => decide (p.1 = k))).filterMap g := by
  induction d with
  | nil => simp
  | cons p rest ih =>
    cases hg : g p with
    | none =>
      by_cases hp : p.1 = k <;>
        simp [List.filterMap_cons, List.filter_cons, hg, hp, ih]
    | some t =>
      have hkey := hk p t hg
      by_cases hp : p.1 = k
      · simp [List.filterMap_cons, List.filter_cons, hg, hp, hkey.trans hp, ih]
      · have hne : ¬ keyf t = k := fun h => hp (hkey ▸ h)
        simp [List.filterMap_cons, List.filter_cons, hg, hp, hne, ih]

/-- Counting elements of one duplicate-free list that occur in another is
symmetric. -/
theorem countP_mem_swap {α : Type} [DecidableEq α] (A B : List α)
    (hA : A.Nodup) (hB : B.Nodup) :
    A.countP (fun k => decide (k ∈ B)) = B.countP (fun k => decide (k ∈ A)) := by
  rw [List.countP_eq_length_filter, List.countP_eq_length_filter]
  have n1 : (A.filter (fun k => decide (k ∈ B))).Nodup := hA.filter _
  have n2 : (B.filter (fun k => decide (k ∈ A))).Nodup := hB.filter _
  rw [← List.toFinset_card_of_nodup n1, ← List.toFinset_card_of_nodup n2]
  congr 1
  ext x
  simp [List.mem_filter, and_comm]

/-! ### COM session events

Shared event alphabet for the session-discipline model of
`customer_excel_qb_sync.py` and `qb_gateway.py`. -/

/-- COM steps that appear in a trace: connection open/close, session
begin/end. -/
inductive QbEvent
  | openConn
  | beginSession
  | endSession
  | closeConn
  deriving DecidableEq

/-- Which COM steps succeed in one run (the transport is free to fail at the
connection, at session begin, or during the request). -/
structure ComOracle where
  openConnOk : Bool
  beginOk : Bool
  requestOk : Bool
  deriving DecidableEq

/-- Number of occurrences of an event in a trace. -/
def countEvent (t : List QbEvent) (e : QbEvent) : Nat :=
  t.countP fun x => decide (x = e)

/-! ### customer_excel_qb_sync.py -/

namespace Sync

/-- `Customer` dataclass of `customer_excel_qb_sync.py` (lines 15-20). -/
structure Customer where
  name : PyStr
  term : PyStr
  customer_id : Int
  deriving DecidableEq

/-- `CustomerComparison` dataclass (lines 23-29). -/
structure CustomerComparison where
  same_id_diff_data : List (PyStr × PyStr × PyStr × Int)
  only_in_excel : List Customer
  only_in_qb : List Customer
  matching_count : Nat
  deriving DecidableEq

/-- The normalised equality of line 196/197: `.strip().lower()` on both
sides. -/
def normEq (a b : PyStr) : Bool :=
  decide (pyLower (pyStrip a) = pyLower (pyStrip b))

/-- The dicts `{c.customer_id: c for c in ...}` of lines 184-185. -/
def byId (customers : List Customer) : List (Int × Customer) :=
  dictOfList (customers.map fun c => (c.customer_id, c))

/-- Condition of line 196: the Excel record matches the QuickBooks record
with the same id on normalised name and term. -/
def matchesQb (qb_map : List (Int × Customer)) (p : Int × Customer) : Bool :=
  match dictLookup qb_map p.1 with
  | some qb_cust => normEq p.2.name qb_cust.name && normEq p.2.term qb_cust.term
  | none => false

/-- Conflict tuple `(excel_name, qb_name, excel_term, id)` appended on lines
200-202, produced exactly when the id is shared and the data differs. -/
def diffOf (qb_map : List (Int × Customer)) (p : Int × Customer) :
    Option (PyStr × PyStr × PyStr × Int) :=
  match dictLookup qb_map p.1 with
  | some qb_cust =>
    if normEq p.2.name qb_cust.name && normEq p.2.term qb_cust.term then none
    else some (p.2.name, qb_cust.name, p.2.term, p.1)
  | none => none

/-- `compare_customers` of `customer_excel_qb_sync.py` (lines 182-216).  The
single Python loop over `excel_map` puts each entry into exactly one of
`matching_count` / `same_id_diff_data` / `only_in_excel`; it is rendered as
one pass per output field with the loop's branch conditions kept verbatim,
which preserves both contents and order. -/
def compare_customers (excel_customers qb_customers : List Customer) :
    CustomerComparison :=
  let excel_map := byId excel_customers
  let qb_map := byId qb_customers
  { same_id_diff_data := excel_map.filterMap (diffOf qb_map)
    only_in_excel :=
      excel_map.filterMap fun p => if dictMem qb_map p.1 then none else some p.2
    only_in_qb :=
      qb_map.filterMap fun p => if dictMem excel_map p.1 then none else some p.2
    matching_count := excel_map.countP (matchesQb qb_map) }

/-- Name escaping of line 131: `&`, `<` and `>` only. -/
def escapeName (v : PyStr) : PyStr :=
  pyReplace (pyReplace (pyReplace v '&' (pys "&amp;")) '<' (pys "&lt;")) '>' (pys "&gt;")

/-- Term handling of line 132: only `&` is replaced, and a falsy (empty) term
becomes the empty string. -/
def escapeTerm (v : PyStr) : PyStr :=
  if v.isEmpty then [] else pyReplace v '&' (pys "&amp;")

/-- One `CustomerAddRq` block of the f-string on lines 133-139. -/
def customerAddRq (cust : Customer) : PyStr :=
  pys "        <CustomerAddRq>\n            <CustomerAdd>\n                <Name>" ++
  escapeName cust.name ++
  pys "</Name>\n                <Fax>" ++
  pys (toString cust.customer_id) ++
  pys "</Fax>\n                " ++
  (if (escapeTerm cust.term).isEmpty then []
   else pys "<TermsRef><FullName>" ++ escapeTerm cust.term ++ pys "</FullName></TermsRef>") ++
  pys "\n            </CustomerAdd>\n        </CustomerAddRq>"

/-- `create_customers_batch_qbxml` (lines 127-148): header, the per-customer
requests joined by newlines, footer. -/
def create_customers_batch_qbxml (customers : List Customer) : PyStr :=
  pys "<?xml version=\"1.0\" encoding=\"utf-8\"?>\n<?qbxml version=\"13.0\"?>\n<QBXML>\n    <QBXMLMsgsRq onError=\"continueOnError\">\n" ++
  List.intercalate (pys "\n") (customers.map customerAddRq) ++
  pys "\n    </QBXMLMsgsRq>\n</QBXML>"

/-- One `CustomerAddRs` element of the batch response: the `statusCode` and
`statusMessage` attributes and the returned `Name` text, each `none` when
absent. -/
structure AddRs where
  statusCode : Option PyStr
  statusMessage : Option PyStr
  name : Option PyStr
  deriving DecidableEq

/-- Response loop of `save_customers_to_quickbooks` (lines 162-175): status
`"0"` appends the returned name to `created`, status `"3100"` (already
exists) is skipped, any other status only prints a warning; the loop always
continues with the next item. -/
def parseAddResponses (items : List AddRs) : List PyStr :=
  items.filterMap fun add_rs =>
    if add_rs.statusCode = some (pys "0") then add_rs.name else none

/-- Interpretation of one `CustomerAddRs`, following the branch structure of
lines 164-174: success, duplicate (soft success), or failure. -/
inductive ItemStatus
  | created
  | alreadyExists
  | failed
  deriving DecidableEq

/-- The branch of lines 164-174 taken for one response item. -/
def classifyAddRs (add_rs : AddRs) : ItemStatus :=
  if add_rs.statusCode = some (pys "0") then ItemStatus.created
  else if add_rs.statusCode = some (pys "3100") then ItemStatus.alreadyExists
  else ItemStatus.failed

/-- Aggregate count of response items with a given interpreted status. -/
def countStatus (items : List AddRs) (s : ItemStatus) : Nat :=
  items.countP fun r => decide (classifyAddRs r = s)

/-- `save_customers_to_quickbooks` (lines 151-179).  The COM transport is the
explicit `remote` argument mapping the request document to the parsed list of
`CustomerAddRs` elements or to a transport/parse exception.  The `Nat` counts
opened QuickBooks sessions: the empty batch returns before connecting, and on
the non-empty path the `finally` block closes the one session on both the
normal and the exception path, the exception then propagating. -/
def save_customers_to_quickbooks (customers : List Customer)
    (remote : PyStr → Except PyStr (List AddRs)) :
    Except PyStr (List PyStr) × Nat :=
  if customers.isEmpty then (.ok [], 0)
  else
    match remote (create_customers_batch_qbxml customers) with
    | .error e => (.error e, 1)
    | .ok items => (.ok (parseAddResponses items), 1)

/-- `process_customers` (lines 220-261), with the Excel rows and QuickBooks
customers supplied as inputs (producing them is the job of the external
collaborators `read_customers_from_excel` and `get_qb_customers`).  Returns
the run's outcome together with the list of argument lists passed to
`save_customers_to_quickbooks`, so write-back invocations are observable.
An empty Excel list raises `ValueError` before any comparison (line 224). -/
def process_customers (excel_customers qb_customers : List Customer)
    (remote : PyStr → Except PyStr (List AddRs)) :
    Except PyStr CustomerComparison × List (List Customer) :=
  if excel_customers.isEmpty then
    (.error (pys "No customers found in Excel file"), [])
  else
    let comparison := compare_customers excel_customers qb_customers
    if comparison.only_in_excel.isEmpty then (.ok comparison, [])
    else
      match save_customers_to_quickbooks comparison.only_in_excel remote with
      | (.error e, _) => (.error e, [comparison.only_in_excel])
      | (.ok _, _) => (.ok comparison, [comparison.only_in_excel])

/-- `connect_to_quickbooks` (lines 63-72): `OpenConnection`, then
`BeginSession`; an exception is re-raised (line 72), leaving the steps
already performed in the trace.  Returns the events and whether a session was
obtained. -/
def connectEvents (o : ComOracle) : List QbEvent × Bool :=
  if !o.openConnOk then ([], false)
  else if !o.beginOk then ([QbEvent.openConn], false)
  else ([QbEvent.openConn, QbEvent.beginSession], true)

/-- Session discipline of `get_qb_customers` (lines 75-124): connect, run the
query inside `try`, and in `finally` call `EndSession` and `CloseConnection`
only when both `qb_app` and `session` were obtained.  The Boolean is `true`
when the operation returns normally. -/
def getQbCustomersEvents (o : ComOracle) : List QbEvent × Bool :=
  match connectEvents o with
  | (t, false) => (t, false)
  | (t, true) => (t ++ [QbEvent.endSession, QbEvent.closeConn], o.requestOk)

/-- Session discipline of `save_customers_to_quickbooks` (lines 151-179):
the empty batch returns at once with no COM step; otherwise connect before
`try`, process inside, and run `EndSession`/`CloseConnection` in `finally`
on both the normal and the exception path. -/
def saveCustomersEvents (o : ComOracle) (isEmptyBatch : Bool) : List QbEvent × Bool :=
  if isEmptyBatch then ([], true)
  else
    match connectEvents o with
    | (t, false) => (t, false)
    | (t, true) => (t ++ [QbEvent.endSession, QbEvent.closeConn], o.requestOk)

end Sync

/-! ### model.py and compare.py -/

namespace Model

/-- `SourceLiteral` of `model.py`. -/
inductive Source
  | excel
  | quickbooks
  deriving DecidableEq

/-- `Customer` dataclass of `model.py` (lines 18-29). -/
structure Customer where
  record_id : PyStr
  name : PyStr
  source : Source
  deriving DecidableEq

/-- `Conflict` dataclass of `model.py` (lines 32-39); `reason` holds the
literal string stored by `compare.py` (`"data_mismatch"` or
`"missing_in_excel"`). -/
structure Conflict where
  record_id : PyStr
  excel_name : Option PyStr
  qb_name : Option PyStr
  reason : PyStr
  deriving DecidableEq

/-- `ComparisonReport` dataclass of `model.py` (lines 42-50). -/
structure ComparisonReport where
  excel_only : List Customer
  qb_only : List Customer
  conflicts : List Conflict
  deriving DecidableEq

/-- The dicts `{c.record_id: c for c in ...}` of compare.py lines 13-14. -/
def byId (customers : List Customer) : List (PyStr × Customer) :=
  dictOfList (customers.map fun c => (c.record_id, c))

/-- The `data_mismatch` conflict appended on compare.py lines 24-32 for an id
present in both dicts whose names differ **literally** (`!=`, no
normalisation). -/
def mismatchConflict (qb_by_id : List (PyStr × Customer)) (p : PyStr × Customer) :
    Option Conflict :=
  match dictLookup qb_by_id p.1 with
  | some qb_c =>
    if p.2.name ≠ qb_c.name then
      some ⟨p.1, some p.2.name, some qb_c.name, pys "data_mismatch"⟩
    else none
  | none => none

/-- `compare_customers` of `compare.py` (lines 7-56).  `mutual_ids` is a
Python set whose iteration order is unspecified; it is modelled in the
insertion order of `excel_by_id`, fixing one deterministic order for the
`data_mismatch` conflicts (the claims proved below do not depend on that
order).  The `missing_in_excel` loop of lines 34-44 appends after it. -/
def compare_customers (excel_customers qb_customers : List Customer) :
    ComparisonReport :=
  let excel_by_id := byId excel_customers
  let qb_by_id := byId qb_customers
  { excel_only :=
      excel_by_id.filterMap fun p => if dictMem qb_by_id p.1 then none else some p.2
    qb_only :=
      qb_by_id.filterMap fun p => if dictMem excel_by_id p.1 then none else some p.2
    conflicts :=
      excel_by_id.filterMap (mismatchConflict qb_by_id) ++
      qb_by_id.filterMap fun p =>
        if dictMem excel_by_id p.1 then none
        else some ⟨p.1, none, some p.2.name, pys "missing_in_excel"⟩ }

end Model

/-! ### qb_gateway.py -/

namespace Gateway

/-- One `StandardTermsRet` element of a batch response: the
`StdDiscountDays` and `Name` texts, `none` when the element is absent. -/
structure TermsRet where
  days : Option PyStr
  name : Option PyStr
  deriving DecidableEq

/-- `_escape_xml` (lines 230-238): all five XML special characters, `&`
first.  `Char.ofNat 39` is the apostrophe. -/
def escape_xml (value : PyStr) : PyStr :=
  pyReplace (pyReplace (pyReplace (pyReplace (pyReplace value
    '&' (pys "&amp;")) '<' (pys "&lt;")) '>' (pys "&gt;"))
    '"' (pys "&quot;")) (Char.ofNat 39) (pys "&apos;")

/-- One `StandardTermsAddRq` block (lines 134-142). -/
def standardTermsAddRq (name : PyStr) (days_value : Int) : PyStr :=
  pys "    <StandardTermsAddRq>\n      <StandardTermsAdd>\n        <Name>" ++
  escape_xml name ++
  pys "</Name>\n        <StdDiscountDays>" ++
  pys (toString days_value) ++
  pys "</StdDiscountDays>\n        <DiscountPct>0</DiscountPct>\n      </StandardTermsAdd>\n    </StandardTermsAddRq>"

/-- `StandardTermsRet` parsing loop of `add_customer_batch` (lines 161-175):
skip items without days, normalise numeric ids, trim names. -/
def parseTermsRets (rets : List TermsRet) : List Model.Customer :=
  rets.filterMap fun term_ret =>
    match term_ret.days with
    | none => none
    | some record_id =>
      if record_id.isEmpty then none
      else
        let rid :=
          match pyInt record_id with
          | some n => pys (toString n)
          | none => pyStrip record_id
        some ⟨rid, pyStrip ((term_ret.name).getD []), Model.Source.quickbooks⟩

/-- `add_customer_batch` (lines 115-175).  The unused `company_file` argument
is dropped; the COM transport is the explicit `remote` argument.  A
non-numeric `record_id` raises `ValueError` before any session is opened; a
transport-level `RuntimeError` from `_send_qbxml` is caught and turned into
an empty **ok** result (lines 153-158, the error is only printed).  The `Nat`
counts opened sessions: `_send_qbxml` opens and closes exactly one. -/
def add_customer_batch (terms : List Model.Customer)
    (remote : PyStr → Except PyStr (List TermsRet)) :
    Except PyStr (List Model.Customer) × Nat :=
  if terms.isEmpty then (.ok [], 0)
  else
    match terms.mapM
        (fun term => (pyInt term.record_id).map fun d => standardTermsAddRq term.name d) with
    | none => (.error (pys "record_id must be numeric for QuickBooks customer terms"), 0)
    | some requests =>
      let qbxml :=
        pys "<?xml version=\"1.0\"?>\n<?qbxml version=\"13.0\"?>\n<QBXML>\n  <QBXMLMsgsRq onError=\"continueOnError\">\n" ++
        List.intercalate (pys "\n") requests ++
        pys "\n  </QBXMLMsgsRq>\n</QBXML>"
      match remote qbxml with
      | .error _ => (.ok [], 1)
      | .ok rets => (.ok (parseTermsRets rets), 1)

/-- Session discipline of `_qb_session` + `_send_qbxml` (lines 31-59):
`OpenConnection2` and `BeginSession` run before the `try`; the request runs
inside; the `finally` calls `EndSession` inside a nested `try` whose own
`finally` runs `CloseConnection`. -/
def sendQbxmlEvents (o : ComOracle) : List QbEvent × Bool :=
  if !o.openConnOk then ([], false)
  else if !o.beginOk then ([QbEvent.openConn], false)
  else ([QbEvent.openConn, QbEvent.beginSession,
         QbEvent.endSession, QbEvent.closeConn], o.requestOk)

end Gateway

/-! ### General helper lemmas for the claim proofs -/

theorem filterMap_eq_map_of_forall {α γ : Type} (f : α → Option γ) (g : α → γ)
    (l : List α) (h : ∀ a ∈ l, f a = some (g a)) : l.filterMap f = l.map g := by
  induction l with
  | nil => simp
  | cons x xs ih =>
    simp only [List.filterMap_cons, h x (List.mem_cons_self x xs), List.map_cons]
    exact congrArg (g x :: ·) (ih fun a ha => h a (List.mem_cons_of_mem _ ha))

theorem sync_byId_keys (l : List Sync.Customer) :
    (l.map fun c => (c.customer_id, c)).map Prod.fst = l.map fun c => c.customer_id := by
  simp [List.map_map, Function.comp]

theorem model_byId_keys (l : List Model.Customer) :
    (l.map fun c => (c.record_id, c)).map Prod.fst = l.map fun c => c.record_id := by
  simp [List.map_map, Function.comp]

theorem sync_lookup_byId_none (q : List Sync.Customer) (id : Int)
    (h : id ∉ q.map fun c => c.customer_id) : dictLookup (Sync.byId q) id = none := by
  rw [dictLookup_eq_none_iff]
  intro hmem
  rw [Sync.byId, mem_keys_dictOfList, sync_byId_keys] at hmem
  exact h hmem

theorem model_lookup_byId_none (q : List Model.Customer) (rid : PyStr)
    (h : rid ∉ q.map fun c => c.record_id) : dictLookup (Model.byId q) rid = none := by
  rw [dictLookup_eq_none_iff]
  intro hmem
  rw [Model.byId, mem_keys_dictOfList, model_byId_keys] at hmem
  exact h hmem

theorem map_snd_map_pair {α β : Type} (f : β → α) (l : List β) :
    (l.map fun c => (f c, c)).map Prod.snd = l := by
  induction l with
  | nil => rfl
  | cons x xs ih => simp [ih]

theorem sync_compare_disjoint (e q : List Sync.Customer)
    (hne : (e.map fun c => c.customer_id).Nodup)
    (hnq : (q.map fun c => c.customer_id).Nodup)
    (hdisj : ∀ id ∈ (e.map fun c => c.customer_id), id ∉ q.map fun c => c.customer_id) :
    Sync.compare_customers e q =
      { same_id_diff_data := [], only_in_excel := e, only_in_qb := q,
        matching_count := 0 } := by
  have heM : Sync.byId e = e.map fun c => (c.customer_id, c) :=
    dictOfList_eq_self _ (by rw [sync_byId_keys]; exact hne)
  have hqM : Sync.byId q = q.map fun c => (c.customer_id, c) :=
    dictOfList_eq_self _ (by rw [sync_byId_keys]; exact hnq)
  have hq_none : ∀ p ∈ Sync.byId e, dictLookup (Sync.byId q) p.1 = none := by
    intro p hp
    rw [heM] at hp
    rcases List.mem_map.mp hp with ⟨c, hc, rfl⟩
    exact sync_lookup_byId_none q _ (hdisj _ (List.mem_map.mpr ⟨c, hc, rfl⟩))
  have he_none : ∀ p ∈ Sync.byId q, dictLookup (Sync.byId e) p.1 = none := by
    intro p hp
    rw [hqM] at hp
    rcases List.mem_map.mp hp with ⟨c, hc, rfl⟩
    apply sync_lookup_byId_none
    intro hmem
    exact hdisj _ hmem (List.mem_map.mpr ⟨c, hc, rfl⟩)
  simp only [Sync.compare_customers, Sync.CustomerComparison.mk.injEq]
  refine ⟨?_, ?_, ?_, ?_⟩
  · rw [List.filterMap_eq_nil]
    intro p hp
    simp [Sync.diffOf, hq_none p hp]
  · have hh : ∀ p ∈ Sync.byId e,
        (fun p => if dictMem (Sync.byId q) p.1 then none else some p.2) p =
          some (Prod.snd p) := by
      intro p hp
      simp [dictMem, hq_none p hp]
    rw [filterMap_eq_map_of_forall _ Prod.snd _ hh, heM, map_snd_map_pair]
  · have hh : ∀ p ∈ Sync.byId q,
        (fun p => if dictMem (Sync.byId e) p.1 then none else some p.2) p =
          some (Prod.snd p) := by
      intro p hp
      simp [dictMem, he_none p hp]
    rw [filterMap_eq_map_of_forall _ Prod.snd _ hh, hqM, map_snd_map_pair]
  · rw [List.countP_eq_zero]
    intro p hp
    simp [Sync.matchesQb, hq_none p hp]

theorem model_compare_disjoint (e q : List Model.Customer)
    (hne : (e.map fun c => c.record_id).Nodup)
    (hnq : (q.map fun c => c.record_id).Nodup)
    (hdisj : ∀ rid ∈ (e.map fun c => c.record_id), rid ∉ q.map fun c => c.record_id) :
    Model.compare_customers e q =
      { excel_only := e, qb_only := q,
        conflicts :=
          q.map fun c => ⟨c.record_id, none, some c.name, pys "missing_in_excel"⟩ } := by
  have heM : Model.byId e = e.map fun c => (c.record_id, c) :=
    dictOfList_eq_self _ (by rw [model_byId_keys]; exact hne)
  have hqM : Model.byId q = q.map fun c => (c.record_id, c) :=
    dictOfList_eq_self _ (by rw [model_byId_keys]; exact hnq)
  have hq_none : ∀ p ∈ Model.byId e, dictLookup (Model.byId q) p.1 = none := by
    intro p hp
    rw [heM] at hp
    rcases List.mem_map.mp hp with ⟨c, hc, rfl⟩
    exact model_lookup_byId_none q _ (hdisj _ (List.mem_map.mpr ⟨c, hc, rfl⟩))
  have he_none : ∀ p ∈ Model.byId q, dictLookup (Model.byId e) p.1 = none := by
    intro p hp
    rw [hqM] at hp
    rcases List.mem_map.mp hp with ⟨c, hc, rfl⟩
    apply model_lookup_byId_none
    intro hmem
    exact hdisj _ hmem (List.mem_map.mpr ⟨c, hc, rfl⟩)
  simp only [Model.compare_customers, Model.ComparisonReport.mk.injEq]
  refine ⟨?_, ?_, ?_⟩
  · have hh : ∀ p ∈ Model.byId e,
        (fun p => if dictMem (Model.byId q) p.1 then none else some p.2) p =
          some (Prod.snd p) := by
      intro p hp
      simp [dictMem, hq_none p hp]
    rw [filterMap_eq_map_of_forall _ Prod.snd _ hh, heM, map_snd_map_pair]
  · have hh : ∀ p ∈ Model.byId q,
        (fun p => if dictMem (Model.byId e) p.1 then none else some p.2) p =
          some (Prod.snd p) := by
      intro p hp
      simp [dictMem, he_none p hp]
    rw [filterMap_eq_map_of_forall _ Prod.snd _ hh, hqM, map_snd_map_pair]
  · have h1 : (Model.byId e).filterMap (Model.mismatchConflict (Model.byId q)) = [] := by
      rw [List.filterMap_eq_nil]
      intro p hp
      simp [Model.mismatchConflict, hq_none p hp]
    have hh : ∀ p ∈ Model.byId q,
        (fun p => if dictMem (Model.byId e) p.1 then none
          else some (⟨p.1, none, some p.2.name, pys "missing_in_excel"⟩ : Model.Conflict)) p =
          some ((fun p : PyStr × Model.Customer =>
            (⟨p.1, none, some p.2.name, pys "missing_in_excel"⟩ : Model.Conflict)) p) := by
      intro p hp
      simp [dictMem, he_none p hp]
    rw [h1, List.nil_append, filterMap_eq_map_of_forall _ _ _ hh, hqM, List.map_map]
    rfl

/-- **C1** (amended).  For input sequences with per-source distinct ids whose
id sets are disjoint, both `compare_customers` implementations return
`only_in_a = A` and `only_in_b = B` in input order; the
`customer_excel_qb_sync` implementation reports `matching_count = 0` and an
empty `same_id_diff_data`, and the `compare.py` implementation emits no
`data_mismatch` conflict — but, contrary to the claim as stated, its conflict
list is not empty: it contains exactly one `missing_in_excel` conflict per
record of the second input. -/
theorem disjoint_inputs_classification
    (e q : List Sync.Customer) (e2 q2 : List Model.Customer)
    (hne : (e.map fun c => c.customer_id).Nodup)
    (hnq : (q.map fun c => c.customer_id).Nodup)
    (hdisj : ∀ id ∈ (e.map fun c => c.customer_id), id ∉ q.map fun c => c.customer_id)
    (hne2 : (e2.map fun c => c.record_id).Nodup)
    (hnq2 : (q2.map fun c => c.record_id).Nodup)
    (hdisj2 : ∀ rid ∈ (e2.map fun c => c.record_id), rid ∉ q2.map fun c => c.record_id) :
    Sync.compare_customers e q =
      { same_id_diff_data := [], only_in_excel := e, only_in_qb := q,
        matching_count := 0 } ∧
    Model.compare_customers e2 q2 =
      { excel_only := e2, qb_only := q2,
        conflicts :=
          q2.map fun c => ⟨c.record_id, none, some c.name, pys "missing_in_excel"⟩ } :=
  ⟨sync_compare_disjoint e q hne hnq hdisj,
   model_compare_disjoint e2 q2 hne2 hnq2 hdisj2⟩

/-- Witness for C1 at concrete disjoint inputs. -/
theorem disjoint_inputs_classification_witness :
    Sync.compare_customers [⟨pys "Acme", pys "Net 30", 1⟩] [⟨pys "Bravo", pys "", 2⟩] =
      { same_id_diff_data := [],
        only_in_excel := [⟨pys "Acme", pys "Net 30", 1⟩],
        only_in_qb := [⟨pys "Bravo", pys "", 2⟩],
        matching_count := 0 } ∧
    Model.compare_customers [⟨pys "1", pys "Acme", Model.Source.excel⟩]
        [⟨pys "2", pys "Bravo", Model.Source.quickbooks⟩] =
      { excel_only := [⟨pys "1", pys "Acme", Model.Source.excel⟩],
        qb_only := [⟨pys "2", pys "Bravo", Model.Source.quickbooks⟩],
        conflicts := [⟨pys "2", none, some (pys "Bravo"), pys "missing_in_excel"⟩] } := by
  have h := disjoint_inputs_classification
    [⟨pys "Acme", pys "Net 30", 1⟩] [⟨pys "Bravo", pys "", 2⟩]
    [⟨pys "1", pys "Acme", Model.Source.excel⟩]
    [⟨pys "2", pys "Bravo", Model.Source.quickbooks⟩]
    (by decide) (by decide) (by decide) (by decide) (by decide) (by decide)
  exact h

/-- **C1** counterexample: for the disjoint inputs `A = []` and
`B = [record "1"]`, the `compare.py` implementation returns a non-empty
conflict list (one `missing_in_excel` conflict), contradicting the claimed
`conflicts == []`. -/
theorem disjoint_inputs_conflicts_counterexample :
    (Model.compare_customers [] [⟨pys "1", pys "Acme", Model.Source.quickbooks⟩]).conflicts ≠
      [] := by
  decide

/-- **C4**.  With an empty candidate list, both write-back implementations
(`save_customers_to_quickbooks` and `add_customer_batch`) return an empty ok
outcome with zero counts and open no QuickBooks session (session count 0),
whatever the transport would do. -/
theorem empty_batch_no_remote_call
    (remote : PyStr → Except PyStr (List Sync.AddRs))
    (remote2 : PyStr → Except PyStr (List Gateway.TermsRet)) :
    Sync.save_customers_to_quickbooks [] remote = (.ok [], 0) ∧
    Gateway.add_customer_batch [] remote2 = (.ok [], 0) := by
  exact ⟨rfl, rfl⟩

theorem map_snd_find?_pair {α β : Type} [DecidableEq α] (f : β → α) (m : List β) (k : α) :
    Option.map Prod.snd
        (List.find? (fun p => decide (p.1 = k)) (m.map fun c => (f c, c))) =
      m.find? fun c => decide (f c = k) := by
  induction m with
  | nil => rfl
  | cons x xs ih =>
    simp only [List.map_cons, List.find?_cons]
    by_cases h : f x = k
    · simp [h]
    · simp only [show (decide ((f x, x).1 = k)) = false by simp [h],
        show (decide (f x = k)) = false by simp [h], cond_false]
      exact ih

/-- **C6** (amended).  The id-keyed mappings built by both compare
implementations resolve duplicate ids deterministically and **last**-wins:
looking up an id returns the last input record carrying that id (while the
key keeps the position of its first occurrence). -/
theorem dict_build_last_wins (l : List Sync.Customer) (id : Int)
    (l2 : List Model.Customer) (rid : PyStr) :
    dictLookup (Sync.byId l) id =
      l.reverse.find? (fun c => decide (c.customer_id = id)) ∧
    dictLookup (Model.byId l2) rid =
      l2.reverse.find? (fun c => decide (c.record_id = rid)) := by
  constructor
  · rw [Sync.byId, dictLookup_dictOfList]
    have hrev : (l.map fun c => (c.customer_id, c)).reverse =
        l.reverse.map fun c => (c.customer_id, c) := by
      simp [List.map_reverse]
    rw [hrev]
    exact map_snd_find?_pair _ _ _
  · rw [Model.byId, dictLookup_dictOfList]
    have hrev : (l2.map fun c => (c.record_id, c)).reverse =
        l2.reverse.map fun c => (c.record_id, c) := by
      simp [List.map_reverse]
    rw [hrev]
    exact map_snd_find?_pair _ _ _

/-- **C6** counterexample: two records share id `1`; the mapping keeps the
**second** (last) occurrence, not the first. -/
theorem dict_build_first_wins_counterexample :
    dictLookup (Sync.byId [⟨pys "first", pys "", 1⟩, ⟨pys "second", pys "", 1⟩]) 1 =
      some ⟨pys "second", pys "", 1⟩ ∧
    dictLookup (Sync.byId [⟨pys "first", pys "", 1⟩, ⟨pys "second", pys "", 1⟩]) 1 ≠
      some ⟨pys "first", pys "", 1⟩ := by
  decide

/-- **C3**.  Per-item response statuses of a write-back batch are interpreted
independently under continue-on-per-item-error: the created names and the
per-status counts of a concatenation are the concatenation/sum of the parts
(so one item's failure never affects the others), a `"3100"` status is
classified already-exists (and nothing else is), and a concrete batch of
three with one duplicate and two successes yields 2 created, 1
already-exists, 0 failed, with the two created names returned. -/
theorem batch_item_statuses_independent :
    (∀ xs ys : List Sync.AddRs,
       Sync.parseAddResponses (xs ++ ys) =
         Sync.parseAddResponses xs ++ Sync.parseAddResponses ys) ∧
    (∀ xs ys : List Sync.AddRs, ∀ s,
       Sync.countStatus (xs ++ ys) s = Sync.countStatus xs s + Sync.countStatus ys s) ∧
    (∀ r : Sync.AddRs,
       Sync.classifyAddRs r = Sync.ItemStatus.alreadyExists ↔
         r.statusCode = some (pys "3100")) ∧
    (Sync.save_customers_to_quickbooks
        [⟨pys "A", pys "", 1⟩, ⟨pys "B", pys "", 2⟩, ⟨pys "C", pys "", 3⟩]
        (fun _ => .ok
          [⟨some (pys "0"), none, some (pys "A")⟩,
           ⟨some (pys "3100"), some (pys "already in use"), none⟩,
           ⟨some (pys "0"), none, some (pys "C")⟩]) =
      (.ok [pys "A", pys "C"], 1)) ∧
    (Sync.countStatus
        [⟨some (pys "0"), none, some (pys "A")⟩,
         ⟨some (pys "3100"), some (pys "already in use"), none⟩,
         ⟨some (pys "0"), none, some (pys "C")⟩] Sync.ItemStatus.created = 2 ∧
     Sync.countStatus
        [⟨some (pys "0"), none, some (pys "A")⟩,
         ⟨some (pys "3100"), some (pys "already in use"), none⟩,
         ⟨some (pys "0"), none, some (pys "C")⟩] Sync.ItemStatus.alreadyExists = 1 ∧
     Sync.countStatus
        [⟨some (pys "0"), none, some (pys "A")⟩,
         ⟨some (pys "3100"), some (pys "already in use"), none⟩,
         ⟨some (pys "0"), none, some (pys "C")⟩] Sync.ItemStatus.failed = 0) := by
  refine ⟨?_, ?_, ?_, ?_, ?_, ?_, ?_⟩
  · intro xs ys
    simp [Sync.parseAddResponses, List.filterMap_append]
  · intro xs ys s
    simp [Sync.countStatus, List.countP_append]
  · intro r
    constructor
    · intro h
      by_cases h0 : r.statusCode = some (pys "0")
      · simp [Sync.classifyAddRs, h0] at h
      · by_cases h31 : r.statusCode = some (pys "3100")
        · exact h31
        · simp [Sync.classifyAddRs, h0, h31] at h
    · intro h
      have h0 : ¬ r.statusCode = some (pys "0") := by rw [h]; decide
      simp [Sync.classifyAddRs, h0, h]
      decide
  · rfl
  · decide
  · decide
  · decide

/-- **C5** (amended).  In `customer_excel_qb_sync.save_customers_to_quickbooks`
a transport-level failure on a non-empty batch propagates to the caller as a
single aggregate error with zero created names — an outcome distinguishable
from the ok-empty outcome of a zero-candidate write.  (The `qb_gateway`
implementation instead swallows the failure; see the counterexample.) -/
theorem transport_failure_outcomes
    (cs : List Sync.Customer) (remote : PyStr → Except PyStr (List Sync.AddRs))
    (err : PyStr)
    (hne : cs ≠ [])
    (hfail : remote (Sync.create_customers_batch_qbxml cs) = .error err) :
    Sync.save_customers_to_quickbooks cs remote = (.error err, 1) ∧
    Except.error err ≠ (Except.ok [] : Except PyStr (List PyStr)) := by
  have hne' : cs.isEmpty = false := by
    cases cs with
    | nil => exact absurd rfl hne
    | cons a l => rfl
  constructor
  · simp [Sync.save_customers_to_quickbooks, hne', hfail]
  · intro h
    exact Except.noConfusion h

/-- Witness for C5 at a concrete one-element batch and failing transport. -/
theorem transport_failure_outcomes_witness :
    Sync.save_customers_to_quickbooks [⟨pys "Acme", pys "", 1⟩]
        (fun _ => .error (pys "cannot connect")) =
      (.error (pys "cannot connect"), 1) ∧
    Except.error (pys "cannot connect") ≠
      (Except.ok [] : Except PyStr (List PyStr)) :=
  transport_failure_outcomes [⟨pys "Acme", pys "", 1⟩]
    (fun _ => .error (pys "cannot connect")) (pys "cannot connect")
    (by decide) rfl

/-- **C5** counterexample: in `qb_gateway.add_customer_batch` a transport
failure on a non-empty batch is caught (lines 153-158) and the call returns
`ok []` — the very value returned for an empty candidate list — so no
aggregate error reaches the caller and the two outcomes are not
distinguishable by the returned value. -/
theorem gateway_transport_failure_counterexample :
    (Gateway.add_customer_batch [⟨pys "30", pys "Net 30", Model.Source.excel⟩]
        (fun _ => .error (pys "transport down"))).1 =
      (Gateway.add_customer_batch [] (fun _ => .error (pys "transport down"))).1 := by
  rfl

/-- **C7**.  In the session-trace models of `get_qb_customers`,
`save_customers_to_quickbooks` and `_qb_session`/`_send_qbxml`, every
successful `BeginSession` is matched by exactly one `EndSession` before the
operation returns or raises: in every terminating trace the number of
session-begin events equals the number of session-end events, and is at most
one. -/
theorem session_open_close_paired (o : ComOracle) (isEmptyBatch : Bool) :
    (countEvent (Sync.getQbCustomersEvents o).1 QbEvent.beginSession =
       countEvent (Sync.getQbCustomersEvents o).1 QbEvent.endSession ∧
     countEvent (Sync.getQbCustomersEvents o).1 QbEvent.beginSession ≤ 1) ∧
    (countEvent (Sync.saveCustomersEvents o isEmptyBatch).1 QbEvent.beginSession =
       countEvent (Sync.saveCustomersEvents o isEmptyBatch).1 QbEvent.endSession ∧
     countEvent (Sync.saveCustomersEvents o isEmptyBatch).1 QbEvent.beginSession ≤ 1) ∧
    (countEvent (Gateway.sendQbxmlEvents o).1 QbEvent.beginSession =
       countEvent (Gateway.sendQbxmlEvents o).1 QbEvent.endSession ∧
     countEvent (Gateway.sendQbxmlEvents o).1 QbEvent.beginSession ≤ 1) := by
  obtain ⟨a, b, c⟩ := o
  cases a <;> cases b <;> cases c <;> cases isEmptyBatch <;> decide

theorem length_eq_countP_add_not {α : Type} (p : α → Bool) (l : List α) :
    l.length = l.countP p + l.countP (fun a => !p a) := by
  induction l with
  | nil => rfl
  | cons x xs ih =>
    by_cases h : p x <;> simp [List.countP_cons, h, ih] <;> omega

theorem dictMem_eq_decide {α β : Type} [DecidableEq α] (d : List (α × β)) (k : α) :
    dictMem d k = decide (k ∈ d.map Prod.fst) := by
  by_cases h : k ∈ d.map Prod.fst
  · have h2 := (dictMem_iff d k).mpr h
    simp [h2, h]
  · have h2 : dictMem d k = false := by
      cases hm : dictMem d k
      · rfl
      · exact absurd ((dictMem_iff d k).mp hm) h
    simp [h2, h]

theorem countP_dictMem_swap {α β γ : Type} [DecidableEq α]
    (dA : List (α × β)) (dB : List (α × γ))
    (hA : (dA.map Prod.fst).Nodup) (hB : (dB.map Prod.fst).Nodup) :
    dA.countP (fun p => dictMem dB p.1) = dB.countP (fun p => dictMem dA p.1) := by
  have h1 : dA.countP (fun p => dictMem dB p.1) =
      (dA.map Prod.fst).countP fun k => decide (k ∈ dB.map Prod.fst) := by
    rw [List.countP_map]
    refine List.countP_congr fun p _ => ?_
    simp [Function.comp, dictMem_eq_decide]
  have h2 : dB.countP (fun p => dictMem dA p.1) =
      (dB.map Prod.fst).countP fun k => decide (k ∈ dA.map Prod.fst) := by
    rw [List.countP_map]
    refine List.countP_congr fun p _ => ?_
    simp [Function.comp, dictMem_eq_decide]
  rw [h1, h2, countP_mem_swap _ _ hA hB]

theorem sync_trichotomy (qM : List (Int × Sync.Customer))
    (d : List (Int × Sync.Customer)) :
    d.countP (Sync.matchesQb qM) + (d.filterMap (Sync.diffOf qM)).length +
      (d.filterMap fun p => if dictMem qM p.1 then none else some p.2).length =
      d.length := by
  induction d with
  | nil => rfl
  | cons p rest ih =>
    cases hl : dictLookup qM p.1 with
    | none =>
      have h1 : Sync.matchesQb qM p = false := by simp [Sync.matchesQb, hl]
      have h2 : Sync.diffOf qM p = none := by simp [Sync.diffOf, hl]
      have h3 : dictMem qM p.1 = false := by simp [dictMem, hl]
      simp [List.countP_cons, List.filterMap_cons, h1, h2, h3]
      omega
    | some qc =>
      have h3 : dictMem qM p.1 = true := by simp [dictMem, hl]
      by_cases hm : (Sync.normEq p.2.name qc.name && Sync.normEq p.2.term qc.term) = true
      · have h1 : Sync.matchesQb qM p = true := by simp [Sync.matchesQb, hl, hm]
        have h2 : Sync.diffOf qM p = none := by simp [Sync.diffOf, hl, hm]
        simp [List.countP_cons, List.filterMap_cons, h1, h2, h3]
        omega
      · have h1 : Sync.matchesQb qM p = false := by
          simp only [Sync.matchesQb, hl]
          exact Bool.not_eq_true _ ▸ hm
        have h2 : Sync.diffOf qM p =
            some (p.2.name, qc.name, p.2.term, p.1) := by
          simp only [Sync.diffOf, hl, if_neg hm]
        simp [List.countP_cons, List.filterMap_cons, h1, h2, h3]
        omega

theorem sync_shared_split (qM : List (Int × Sync.Customer))
    (d : List (Int × Sync.Customer)) :
    d.countP (Sync.matchesQb qM) + (d.filterMap (Sync.diffOf qM)).length =
      d.countP fun p => dictMem qM p.1 := by
  induction d with
  | nil => rfl
  | cons p rest ih =>
    cases hl : dictLookup qM p.1 with
    | none =>
      have h1 : Sync.matchesQb qM p = false := by simp [Sync.matchesQb, hl]
      have h2 : Sync.diffOf qM p = none := by simp [Sync.diffOf, hl]
      have h3 : dictMem qM p.1 = false := by simp [dictMem, hl]
      simp [List.countP_cons, List.filterMap_cons, h1, h2, h3]
      omega
    | some qc =>
      have h3 : dictMem qM p.1 = true := by simp [dictMem, hl]
      by_cases hm : (Sync.normEq p.2.name qc.name && Sync.normEq p.2.term qc.term) = true
      · have h1 : Sync.matchesQb qM p = true := by simp [Sync.matchesQb, hl, hm]
        have h2 : Sync.diffOf qM p = none := by simp [Sync.diffOf, hl, hm]
        simp [List.countP_cons, List.filterMap_cons, h1, h2, h3]
        omega
      · have h1 : Sync.matchesQb qM p = false := by
          simp only [Sync.matchesQb, hl]
          exact Bool.not_eq_true _ ▸ hm
        have h2 : Sync.diffOf qM p =
            some (p.2.name, qc.name, p.2.term, p.1) := by
          simp only [Sync.diffOf, hl, if_neg hm]
        simp [List.countP_cons, List.filterMap_cons, h1, h2, h3]
        omega

theorem length_filterMap_notMem {α β γ : Type} [DecidableEq α]
    (eM : List (α × γ)) (d : List (α × β)) :
    (d.filterMap fun p => if dictMem eM p.1 then none else some p.2).length =
      d.countP fun p => !(dictMem eM p.1) := by
  induction d with
  | nil => rfl
  | cons p rest ih =>
    by_cases h : dictMem eM p.1 <;>
      simp [List.filterMap_cons, List.countP_cons, h, ih]

/-- **C10**.  `compare_customers` of `customer_excel_qb_sync.py` partitions
both deduplicated id sets: `matching_count + |same_id_diff_data| +
|only_in_excel|` equals the number of distinct Excel ids, and
`matching_count + |same_id_diff_data| + |only_in_qb|` equals the number of
distinct QuickBooks ids — every id is classified exactly once. -/
theorem compare_partitions_ids (e q : List Sync.Customer) :
    (Sync.compare_customers e q).matching_count +
      (Sync.compare_customers e q).same_id_diff_data.length +
      (Sync.compare_customers e q).only_in_excel.length =
      (e.map fun c => c.customer_id).toFinset.card ∧
    (Sync.compare_customers e q).matching_count +
      (Sync.compare_customers e q).same_id_diff_data.length +
      (Sync.compare_customers e q).only_in_qb.length =
      (q.map fun c => c.customer_id).toFinset.card := by
  have hlenE : (Sync.byId e).length = (e.map fun c => c.customer_id).toFinset.card := by
    rw [Sync.byId, length_dictOfList, sync_byId_keys]
  have hlenQ : (Sync.byId q).length = (q.map fun c => c.customer_id).toFinset.card := by
    rw [Sync.byId, length_dictOfList, sync_byId_keys]
  constructor
  · rw [← hlenE]
    simp only [Sync.compare_customers]
    exact sync_trichotomy (Sync.byId q) (Sync.byId e)
  · rw [← hlenQ]
    simp only [Sync.compare_customers]
    rw [sync_shared_split (Sync.byId q) (Sync.byId e),
      length_filterMap_notMem (Sync.byId e) (Sync.byId q),
      countP_dictMem_swap (Sync.byId e) (Sync.byId q)
        (nodupKeys_dictOfList _) (nodupKeys_dictOfList _)]
    exact (length_eq_countP_add_not _ _).symm

/-- **C9**.  In every `process_customers` run the write-back is invoked at
most once, and only ever with the `only_in_excel` records of the comparison
(never `only_in_qb` or conflict records); and whenever the run returns a
comparison it is exactly the one constructed by `compare_customers` — the
write-back leaves it unchanged. -/
theorem writeback_invocation_discipline
    (e q : List Sync.Customer) (remote : PyStr → Except PyStr (List Sync.AddRs)) :
    ((Sync.process_customers e q remote).2 = [] ∨
     (Sync.process_customers e q remote).2 =
       [(Sync.compare_customers e q).only_in_excel]) ∧
    ((Sync.process_customers e q remote).1 = .ok (Sync.compare_customers e q) ∨
     ∃ err, (Sync.process_customers e q remote).1 = .error err) := by
  unfold Sync.process_customers
  by_cases he : e.isEmpty
  · simp [he]
  · by_cases ho : (Sync.compare_customers e q).only_in_excel.isEmpty
    · simp [he, ho]
    · rcases hs : Sync.save_customers_to_quickbooks
          (Sync.compare_customers e q).only_in_excel remote with ⟨res, n⟩
      cases res with
      | error err => simp [he, ho, hs]
      | ok v => simp [he, ho, hs]

/-- Per-character XML entity map covering all five reserved characters
(the behaviour the specification asks for). -/
def escCharFull (c : Char) : PyStr :=
  if c = '&' then pys "&amp;"
  else if c = '<' then pys "&lt;"
  else if c = '>' then pys "&gt;"
  else if c = '"' then pys "&quot;"
  else if c = Char.ofNat 39 then pys "&apos;"
  else [c]

/-- Per-character map escaping only `&`, `<` and `>` (what
`customer_excel_qb_sync` applies to names). -/
def escCharAmpLtGt (c : Char) : PyStr :=
  if c = '&' then pys "&amp;"
  else if c = '<' then pys "&lt;"
  else if c = '>' then pys "&gt;"
  else [c]

/-- Per-character map escaping only `&` (what `customer_excel_qb_sync`
applies to terms). -/
def escCharAmp (c : Char) : PyStr :=
  if c = '&' then pys "&amp;" else [c]

theorem pyReplace_append (s t : PyStr) (c : Char) (r : PyStr) :
    pyReplace (s ++ t) c r = pyReplace s c r ++ pyReplace t c r := by
  simp [pyReplace]

theorem escape_xml_append (s t : PyStr) :
    Gateway.escape_xml (s ++ t) = Gateway.escape_xml s ++ Gateway.escape_xml t := by
  simp [Gateway.escape_xml, pyReplace_append]

theorem escape_xml_singleton (x : Char) : Gateway.escape_xml [x] = escCharFull x := by
  by_cases h1 : x = '&'
  · subst h1; decide
  by_cases h2 : x = '<'
  · subst h2; decide
  by_cases h3 : x = '>'
  · subst h3; decide
  by_cases h4 : x = '"'
  · subst h4; decide
  by_cases h5 : x = Char.ofNat 39
  · subst h5; decide
  simp [Gateway.escape_xml, pyReplace, escCharFull, h1, h2, h3, h4, h5]

theorem escape_xml_eq_flatMap (v : PyStr) :
    Gateway.escape_xml v = v.flatMap escCharFull := by
  induction v with
  | nil => rfl
  | cons x xs ih =>
    have : (x :: xs : PyStr) = [x] ++ xs := rfl
    rw [this, escape_xml_append, ih, escape_xml_singleton]
    simp

theorem escapeName_append (s t : PyStr) :
    Sync.escapeName (s ++ t) = Sync.escapeName s ++ Sync.escapeName t := by
  simp [Sync.escapeName, pyReplace_append]

theorem escapeName_singleton (x : Char) : Sync.escapeName [x] = escCharAmpLtGt x := by
  by_cases h1 : x = '&'
  · subst h1; decide
  by_cases h2 : x = '<'
  · subst h2; decide
  by_cases h3 : x = '>'
  · subst h3; decide
  simp [Sync.escapeName, pyReplace, escCharAmpLtGt, h1, h2, h3]

theorem escapeName_eq_flatMap (v : PyStr) :
    Sync.escapeName v = v.flatMap escCharAmpLtGt := by
  induction v with
  | nil => rfl
  | cons x xs ih =>
    have : (x :: xs : PyStr) = [x] ++ xs := rfl
    rw [this, escapeName_append, ih, escapeName_singleton]
    simp

/-- **C8** (amended).  `qb_gateway._escape_xml` escapes every occurrence of
all five reserved characters (it maps each character through the full entity
map).  `customer_excel_qb_sync.create_customers_batch_qbxml`, however,
escapes only `&`, `<`, `>` in names (quotes and apostrophes pass through)
and only `&` in terms (`<`, `>`, quotes and apostrophes pass through). -/
theorem escaping_characterization (v w : PyStr) :
    Gateway.escape_xml v = v.flatMap escCharFull ∧
    Sync.escapeName v = v.flatMap escCharAmpLtGt ∧
    Sync.escapeTerm w = (if w.isEmpty then [] else w.flatMap escCharAmp) := by
  refine ⟨escape_xml_eq_flatMap v, escapeName_eq_flatMap v, ?_⟩
  rfl

/-- **C8** counterexample: a term containing `<` is inserted into the batch
payload unescaped — `escapeTerm` leaves `"a<b"` unchanged and the raw
character sequence `a<b` occurs verbatim in the constructed request, and a
name containing a double quote keeps it unescaped as well. -/
theorem sync_term_escape_counterexample :
    Sync.escapeTerm (pys "a<b") = pys "a<b" ∧
    List.IsInfix (pys "a<b")
      (Sync.create_customers_batch_qbxml [⟨pys "N", pys "a<b", 1⟩]) ∧
    Sync.escapeName (pys "say \"hi\"") = pys "say \"hi\"" := by
  refine ⟨by decide, by decide, by decide⟩

/-- **C2** (amended).  In `customer_excel_qb_sync.compare_customers`, for an
id bound in both mappings (to `ec` on the Excel side and `qc` on the
QuickBooks side): `matching_count` is the number of shared ids whose
normalised (strip + lower) name and term agree, this id contributing exactly
one when it matches and zero otherwise; and when it does not match,
`same_id_diff_data` contains exactly one tuple for this id, retaining the raw
Excel name, raw QuickBooks name and raw Excel term (the QuickBooks term is
not retained and the tuple carries no reason field).  (`compare.py` instead
compares names literally with no normalisation; see the counterexample.) -/
theorem shared_id_normalized_match
    (e q : List Sync.Customer) (cid : Int) (ec qc : Sync.Customer)
    (he : dictLookup (Sync.byId e) cid = some ec)
    (hq : dictLookup (Sync.byId q) cid = some qc) :
    (Sync.compare_customers e q).matching_count =
      (Sync.byId e).countP (Sync.matchesQb (Sync.byId q)) ∧
    (Sync.compare_customers e q).same_id_diff_data.filter
        (fun t => decide (t.2.2.2 = cid)) =
      (if Sync.normEq ec.name qc.name && Sync.normEq ec.term qc.term then []
       else [(ec.name, qc.name, ec.term, cid)]) ∧
    (Sync.byId e).countP
        (fun p => Sync.matchesQb (Sync.byId q) p && decide (p.1 = cid)) =
      (if Sync.normEq ec.name qc.name && Sync.normEq ec.term qc.term then 1
       else 0) := by
  have hnodup : ((Sync.byId e).map Prod.fst).Nodup := nodupKeys_dictOfList _
  have hk : ∀ (p : Int × Sync.Customer) t,
      Sync.diffOf (Sync.byId q) p = some t → t.2.2.2 = p.1 := by
    intro p t ht
    cases hl : dictLookup (Sync.byId q) p.1 with
    | none => simp [Sync.diffOf, hl] at ht
    | some qc2 =>
      by_cases hm : (Sync.normEq p.2.name qc2.name &&
          Sync.normEq p.2.term qc2.term) = true
      · simp [Sync.diffOf, hl, hm] at ht
      · simp only [Sync.diffOf, hl, if_neg hm, Option.some.injEq] at ht
        rw [← ht]
  refine ⟨rfl, ?_, ?_⟩
  · show ((Sync.byId e).filterMap (Sync.diffOf (Sync.byId q))).filter
        (fun t => decide (t.2.2.2 = cid)) = _
    rw [filterMap_filter_key _ _ hk (Sync.byId e) cid,
      dictFilter_key (Sync.byId e) cid ec hnodup he]
    by_cases hm : (Sync.normEq ec.name qc.name && Sync.normEq ec.term qc.term) = true
    · simp [List.filterMap_cons, Sync.diffOf, hq, hm]
    · simp [List.filterMap_cons, Sync.diffOf, hq, hm]
  · rw [← List.countP_filter, dictFilter_key (Sync.byId e) cid ec hnodup he]
    by_cases hm : (Sync.normEq ec.name qc.name && Sync.normEq ec.term qc.term) = true
    · simp [List.countP_cons, Sync.matchesQb, hq, hm]
    · simp [List.countP_cons, Sync.matchesQb, hq, hm]

/-- Witness for C2 at a shared id whose raw values differ only in case and
whitespace. -/
theorem shared_id_normalized_match_witness :
    (Sync.compare_customers [⟨pys " Acme ", pys "net 30", 7⟩]
        [⟨pys "acme", pys "NET 30", 7⟩]).matching_count =
      (Sync.byId [⟨pys " Acme ", pys "net 30", 7⟩]).countP
        (Sync.matchesQb (Sync.byId [⟨pys "acme", pys "NET 30", 7⟩])) ∧
    (Sync.compare_customers [⟨pys " Acme ", pys "net 30", 7⟩]
        [⟨pys "acme", pys "NET 30", 7⟩]).same_id_diff_data.filter
        (fun t => decide (t.2.2.2 = 7)) =
      (if Sync.normEq (pys " Acme ") (pys "acme") &&
          Sync.normEq (pys "net 30") (pys "NET 30") then []
       else [(pys " Acme ", pys "acme", pys "net 30", 7)]) ∧
    (Sync.byId [⟨pys " Acme ", pys "net 30", 7⟩]).countP
        (fun p => Sync.matchesQb (Sync.byId [⟨pys "acme", pys "NET 30", 7⟩]) p &&
          decide (p.1 = 7)) =
      (if Sync.normEq (pys " Acme ") (pys "acme") &&
          Sync.normEq (pys "net 30") (pys "NET 30") then 1
       else 0) :=
  shared_id_normalized_match [⟨pys " Acme ", pys "net 30", 7⟩]
    [⟨pys "acme", pys "NET 30", 7⟩] 7 ⟨pys " Acme ", pys "net 30", 7⟩
    ⟨pys "acme", pys "NET 30", 7⟩ (by decide) (by decide)

/-- **C2** counterexample: `compare.py` emits a `data_mismatch` conflict for
records whose names are equal after trimming and lower-casing but differ
literally — the claim's "no conflict is emitted" branch fails on this
implementation (which also has no matched count at all). -/
theorem compare_py_normalization_counterexample :
    (Model.compare_customers [⟨pys "1", pys "Acme", Model.Source.excel⟩]
        [⟨pys "1", pys "acme", Model.Source.quickbooks⟩]).conflicts =
      [⟨pys "1", some (pys "Acme"), some (pys "acme"), pys "data_mismatch"⟩] := by
  decide
